import Mathlib

/-!
Verification of the billing-and-schedule computation core of the tutoring
backend (DashboardService.overview and TeachersService.listTeacherClasses).

Conventions of the embedding:
* Money amounts are `Int` cents; nullable database columns are `Option`.
* `pricingMode` is the string stored in the row; the source compares it
  with the literal `"FIXED_TOTAL"` and treats everything else as the
  per-student branch, and so do we.
* Calendar instants are modelled by their UTC epoch coordinates: a date is
  its epoch-day number (`Int`), an instant is its epoch-minute number
  (`Int`), and a calendar month is its absolute month index
  `year * 12 + (month - 1)` (`Int`).  `Date.prototype.toISOString` prints
  UTC instants with zero-padded fields, so `localeCompare` on those strings
  orders exactly as the epoch-minute numbers; the session identifier
  `` `${slotId}-${isoDate}` `` is in bijection with the pair
  `(slotId, epochDay)`, which is what we store.
* `getUTCDay()` of an epoch day `e` is `(e + 4) % 7` (1970-01-01 was a
  Thursday); Lean's `%` on `Int` is Euclidean, matching the JS Date
  normalisation for negative inputs.
-/

/-- Pricing rule shared verbatim by `DashboardService.overview`
(`estimatedRevenueCents`) and `TeachersService.listTeacherClasses`
(`baseRevenue`):
`c.pricingMode === 'FIXED_TOTAL' ? (c.fixedMonthlyPriceCents ?? 0)
 : (c.monthlyPriceCents ?? 0) * studentCount`. -/
def computeMonthlyRevenue (mode : String)
    (monthlyPriceCents fixedMonthlyPriceCents : Option Int)
    (enrolledCount : Nat) : Int :=
  if mode = "FIXED_TOTAL" then fixedMonthlyPriceCents.getD 0
  else monthlyPriceCents.getD 0 * enrolledCount

/-- A class row as fetched with `include: { students: true, teacher: ... }`
(fields the computations read; students are represented by their ids). -/
structure RawClass where
  id : String
  name : String
  pricingMode : String
  monthlyPriceCents : Option Int
  fixedMonthlyPriceCents : Option Int
  students : List String
  deriving Repr, DecidableEq, Inhabited

/-- One entry of the dashboard `topClasses` list. -/
structure ClassEntry where
  id : String
  name : String
  studentCount : Nat
  pricingMode : String
  estimatedRevenueCents : Int
  deriving Repr, DecidableEq, Inhabited

/-- The per-class map step of `topClasses` (dashboard service, lines
152-169): `studentCount = c.students?.length || 0` and the pricing
ternary for `estimatedRevenueCents`. -/
def mkClassEntry (c : RawClass) : ClassEntry :=
  { id := c.id
    name := c.name
    studentCount := c.students.length
    pricingMode := c.pricingMode
    estimatedRevenueCents :=
      if c.pricingMode = "FIXED_TOTAL" then c.fixedMonthlyPriceCents.getD 0
      else c.monthlyPriceCents.getD 0 * c.students.length }

/-- `baseRevenue` of `TeachersService.listTeacherClasses` (lines 187-190). -/
def tcBaseRevenue (c : RawClass) : Int :=
  if c.pricingMode = "FIXED_TOTAL" then c.fixedMonthlyPriceCents.getD 0
  else c.monthlyPriceCents.getD 0 * c.students.length

/-- `effectivePricePerStudent` of `TeachersService.listTeacherClasses`
(lines 191-194): the fixed total itself under FIXED_TOTAL (comment in the
source: "currently invoiced fully per student"), otherwise the per-student
price. -/
def tcEffectivePrice (c : RawClass) : Int :=
  if c.pricingMode = "FIXED_TOTAL" then c.fixedMonthlyPriceCents.getD 0
  else c.monthlyPriceCents.getD 0

/-- C1: `computeMonthlyRevenue` returns `fixedTotalCents` (default 0 when
absent) under FIXED_TOTAL, independent of the enrolled count `n`, and
`perStudentCents` (default 0) `* n` under PER_STUDENT; both call sites
(dashboard `estimatedRevenueCents` and teacher-class `baseRevenue`) compute
exactly this function. -/
theorem C1_computeMonthlyRevenue :
    ∀ (per fixed : Option Int) (n m : Nat),
      (computeMonthlyRevenue ("FIXED_TOTAL") per fixed n = fixed.getD 0
        ∧ computeMonthlyRevenue ("FIXED_TOTAL") per fixed n
            = computeMonthlyRevenue ("FIXED_TOTAL") per fixed m
        ∧ computeMonthlyRevenue ("FIXED_TOTAL") per none n = 0)
      ∧ (computeMonthlyRevenue ("PER_STUDENT") per fixed n = per.getD 0 * n
        ∧ computeMonthlyRevenue ("PER_STUDENT") none fixed n = 0)
      ∧ (∀ c : RawClass,
          (mkClassEntry c).estimatedRevenueCents
            = computeMonthlyRevenue c.pricingMode c.monthlyPriceCents
                c.fixedMonthlyPriceCents c.students.length
          ∧ tcBaseRevenue c
            = computeMonthlyRevenue c.pricingMode c.monthlyPriceCents
                c.fixedMonthlyPriceCents c.students.length) := by
  intro per fixed n m
  refine ⟨⟨rfl, rfl, rfl⟩, ⟨by simp [computeMonthlyRevenue], by simp [computeMonthlyRevenue]⟩, ?_⟩
  intro c
  exact ⟨rfl, rfl⟩

/-- The FIXED_TOTAL example class of the spec: 20000 cents fixed, 2
students enrolled. -/
def exFixedClass : RawClass :=
  { id := "cf"
    name := "Fixed"
    pricingMode := "FIXED_TOTAL"
    monthlyPriceCents := none
    fixedMonthlyPriceCents := some 20000
    students := ["s1", "s2"] }

/-- C3: under FIXED_TOTAL the reported effective price per student is the
fixed total itself (default 0), for every enrolled count — it does not
read the student list at all — and concretely with 20000 cents and 2
students it is 20000, not 20000 / 2. -/
theorem C3_effectivePricePerStudent :
    (∀ c : RawClass, c.pricingMode = "FIXED_TOTAL" →
        tcEffectivePrice c = c.fixedMonthlyPriceCents.getD 0
        ∧ ∀ students' : List String,
            tcEffectivePrice { c with students := students' } = tcEffectivePrice c)
      ∧ (tcEffectivePrice exFixedClass = 20000
        ∧ exFixedClass.students.length = 2
        ∧ tcEffectivePrice exFixedClass ≠ 20000 / 2) := by
  refine ⟨?_, by decide, by decide, by decide⟩
  intro c hmode
  constructor
  · simp [tcEffectivePrice, hmode]
  · intro students'
    simp [tcEffectivePrice]

/-- Witness for C3 at the concrete FIXED_TOTAL example class. -/
theorem C3_effectivePricePerStudent_witness :
    tcEffectivePrice exFixedClass = exFixedClass.fixedMonthlyPriceCents.getD 0 :=
  (C3_effectivePricePerStudent.1 exFixedClass rfl).1

/-!
## A model of `Array.prototype.sort` with an integer-keyed comparator

Both sorts of the dashboard use a comparator that is an integer key
comparison: `(a, b) => b.studentCount - a.studentCount` (key
`-studentCount`) and `(a, b) => a.start.localeCompare(b.start)` (key: the
epoch minute of `start`, since ISO-8601 UTC strings compare
lexicographically exactly as instants).  ECMAScript sort is stable, so we
model it as a stable insertion sort: an element is inserted *after* every
element whose key is not strictly greater, which preserves the relative
order of equal keys.
-/

/-- Insert `x` before the first element whose key is strictly greater. -/
def insertByKey (k : α → Int) (x : α) : List α → List α
  | [] => [x]
  | y :: ys => if k x < k y then x :: y :: ys else y :: insertByKey k x ys

/-- Stable sort by integer key: left-to-right insertion. -/
def sortByKey (k : α → Int) (l : List α) : List α :=
  l.foldl (fun acc x => insertByKey k x acc) []

theorem length_insertByKey (k : α → Int) (x : α) (m : List α) :
    (insertByKey k x m).length = m.length + 1 := by
  induction m with
  | nil => rfl
  | cons y ys ih =>
    simp only [insertByKey]
    split <;> simp [ih]

theorem mem_insertByKey (k : α → Int) (x z : α) (m : List α) :
    z ∈ insertByKey k x m ↔ z = x ∨ z ∈ m := by
  induction m with
  | nil => simp [insertByKey]
  | cons y ys ih =>
    simp only [insertByKey]
    split
    · simp [List.mem_cons]
    · simp only [List.mem_cons, ih]
      tauto

theorem pairwise_insertByKey (k : α → Int) (x : α) (m : List α)
    (hm : m.Pairwise (fun u v => k u ≤ k v)) :
    (insertByKey k x m).Pairwise (fun u v => k u ≤ k v) := by
  induction m with
  | nil => simp [insertByKey]
  | cons y ys ih =>
    rw [List.pairwise_cons] at hm
    simp only [insertByKey]
    split
    · rename_i hlt
      refine List.pairwise_cons.mpr ⟨?_, List.pairwise_cons.mpr hm⟩
      intro z hz
      rcases List.mem_cons.mp hz with h | h
      · exact le_of_lt (h ▸ hlt)
      · exact le_trans (le_of_lt hlt) (hm.1 z h)
    · rename_i hnlt
      refine List.pairwise_cons.mpr ⟨?_, ih hm.2⟩
      intro z hz
      rcases (mem_insertByKey k x z ys).mp hz with h | h
      · exact h ▸ le_of_not_lt hnlt
      · exact hm.1 z h

theorem filter_insertByKey_ne (k : α → Int) (x : α) (m : List α) (c : Int)
    (hx : k x ≠ c) :
    (insertByKey k x m).filter (fun y => k y == c)
      = m.filter (fun y => k y == c) := by
  induction m with
  | nil => simp [insertByKey, hx]
  | cons y ys ih =>
    simp only [insertByKey]
    split
    · rw [List.filter_cons]
      simp [hx]
    · rw [List.filter_cons, List.filter_cons, ih]

theorem filter_insertByKey_eq (k : α → Int) (x : α) (m : List α) (c : Int)
    (hm : m.Pairwise (fun u v => k u ≤ k v)) (hx : k x = c) :
    (insertByKey k x m).filter (fun y => k y == c)
      = m.filter (fun y => k y == c) ++ [x] := by
  induction m with
  | nil => simp [insertByKey, hx]
  | cons y ys ih =>
    rw [List.pairwise_cons] at hm
    simp only [insertByKey]
    split
    · rename_i hlt
      have hy : ¬ (k y = c) := by omega
      have hys : (y :: ys).filter (fun z => k z == c) = [] := by
        rw [List.filter_eq_nil_iff]
        intro z hz
        rcases List.mem_cons.mp hz with h | h
        · subst h; simp [hy]
        · have := hm.1 z h
          have : ¬ (k z = c) := by omega
          simp [this]
      rw [hys, List.filter_cons]
      simp [hx, hys]
    · rw [List.filter_cons, List.filter_cons, ih hm.2]
      split <;> simp

theorem sortByKey_append_singleton (k : α → Int) (l : List α) (x : α) :
    sortByKey k (l ++ [x]) = insertByKey k x (sortByKey k l) := by
  simp [sortByKey, List.foldl_append]

theorem length_sortByKey (k : α → Int) (l : List α) :
    (sortByKey k l).length = l.length := by
  induction l using List.reverseRecOn with
  | nil => rfl
  | append_singleton l x ih =>
    rw [sortByKey_append_singleton, length_insertByKey, ih]
    simp

theorem sorted_sortByKey (k : α → Int) (l : List α) :
    (sortByKey k l).Pairwise (fun u v => k u ≤ k v) := by
  induction l using List.reverseRecOn with
  | nil => simp [sortByKey]
  | append_singleton l x ih =>
    rw [sortByKey_append_singleton]
    exact pairwise_insertByKey k x _ ih

theorem mem_sortByKey (k : α → Int) (l : List α) (z : α) :
    z ∈ sortByKey k l ↔ z ∈ l := by
  induction l using List.reverseRecOn with
  | nil => simp [sortByKey]
  | append_singleton l x ih =>
    rw [sortByKey_append_singleton, mem_insertByKey]
    simp [ih]
    tauto

/-- Stability of the sort: elements of each key class keep their relative
order — the sorted list filtered to one key value is the input so
filtered. -/
theorem filter_sortByKey (k : α → Int) (l : List α) (c : Int) :
    (sortByKey k l).filter (fun y => k y == c)
      = l.filter (fun y => k y == c) := by
  induction l using List.reverseRecOn with
  | nil => rfl
  | append_singleton l x ih =>
    rw [sortByKey_append_singleton]
    by_cases hx : k x = c
    · rw [filter_insertByKey_eq k x _ c (sorted_sortByKey k l) hx, ih,
        List.filter_append]
      simp [hx]
    · rw [filter_insertByKey_ne k x _ c hx, ih, List.filter_append]
      simp [hx]

/-!
## Top classes (dashboard lines 151-171)
-/

/-- Sort key of the `topClasses` comparator
`(a, b) => b.studentCount - a.studentCount`: `a` precedes `b` exactly when
the comparator is negative, i.e. when `-a.studentCount < -b.studentCount`. -/
def negCountKey (e : ClassEntry) : Int := -(e.studentCount : Int)

/-- `topClasses`: map every class row to its entry, sort descending by
student count (stable), take the first 5. -/
def dashTopClasses (cs : List RawClass) : List ClassEntry :=
  (sortByKey negCountKey (cs.map mkClassEntry)).take 5

/-- The PER_STUDENT example class of the spec: 5000 cents per student,
3 enrolled. -/
def exPerClass : RawClass :=
  { id := "cp"
    name := "Per"
    pricingMode := "PER_STUDENT"
    monthlyPriceCents := some 5000
    fixedMonthlyPriceCents := none
    students := ["s1", "s2", "s3"] }

/-- The FIXED_TOTAL example class of the spec with 10 enrolled students. -/
def exFixed10Class : RawClass :=
  { id := "cf10"
    name := "Fixed10"
    pricingMode := "FIXED_TOTAL"
    monthlyPriceCents := none
    fixedMonthlyPriceCents := some 20000
    students := ["t1", "t2", "t3", "t4", "t5", "t6", "t7", "t8", "t9", "t10"] }

/-- C8: `topClasses` is the first 5 entries after the stable descending
sort by `studentCount`: its length is `min 5` the snapshot size, it is
sorted descending by `studentCount`, the sort preserves the snapshot order
inside every tie class, every emitted entry comes from a snapshot row with
`estimatedRevenueCents` given by the pricing rule, and on the spec's
concrete pair the FIXED_TOTAL class with 10 students (revenue 20000)
precedes the PER_STUDENT class with 3 students (revenue 15000). -/
theorem C8_topClasses :
    (∀ cs : List RawClass,
      (dashTopClasses cs).length = min 5 cs.length
      ∧ (dashTopClasses cs).Pairwise (fun u v => v.studentCount ≤ u.studentCount)
      ∧ (∀ n : Int,
          (sortByKey negCountKey (cs.map mkClassEntry)).filter
              (fun e => negCountKey e == n)
            = (cs.map mkClassEntry).filter (fun e => negCountKey e == n))
      ∧ (∀ e ∈ dashTopClasses cs, ∃ c ∈ cs, e = mkClassEntry c
          ∧ e.estimatedRevenueCents
              = computeMonthlyRevenue c.pricingMode c.monthlyPriceCents
                  c.fixedMonthlyPriceCents c.students.length))
    ∧ (dashTopClasses [exPerClass, exFixed10Class]
          = [mkClassEntry exFixed10Class, mkClassEntry exPerClass]
      ∧ (mkClassEntry exFixed10Class).estimatedRevenueCents = 20000
      ∧ (mkClassEntry exPerClass).estimatedRevenueCents = 15000) := by
  refine ⟨?_, by decide, by decide, by decide⟩
  intro cs
  refine ⟨?_, ?_, ?_, ?_⟩
  · simp [dashTopClasses, List.length_take, length_sortByKey]
  · have hs := sorted_sortByKey negCountKey (cs.map mkClassEntry)
    have hsub : List.Sublist (dashTopClasses cs)
        (sortByKey negCountKey (cs.map mkClassEntry)) :=
      List.take_sublist _ _
    have := hs.sublist hsub
    refine this.imp ?_
    intro u v h
    simp only [negCountKey, neg_le_neg_iff, Nat.cast_le] at h
    exact h
  · intro n
    exact filter_sortByKey negCountKey (cs.map mkClassEntry) n
  · intro e he
    have hmem : e ∈ sortByKey negCountKey (cs.map mkClassEntry) :=
      (List.take_sublist _ _).mem he
    have : e ∈ cs.map mkClassEntry := (mem_sortByKey _ _ _).mp hmem
    rcases List.mem_map.mp this with ⟨c, hc, hce⟩
    exact ⟨c, hc, hce.symm, by rw [← hce]; rfl⟩

/-- Witness for C8: the FIXED_TOTAL entry the concrete top-classes list
puts first does come from a snapshot row, with revenue given by the
pricing rule. -/
theorem C8_topClasses_witness :
    ∃ c ∈ [exPerClass, exFixed10Class],
      mkClassEntry exFixed10Class = mkClassEntry c
      ∧ (mkClassEntry exFixed10Class).estimatedRevenueCents
          = computeMonthlyRevenue c.pricingMode c.monthlyPriceCents
              c.fixedMonthlyPriceCents c.students.length :=
  (C8_topClasses.1 [exPerClass, exFixed10Class]).2.2.2
    (mkClassEntry exFixed10Class) (by decide)

/-!
## Schedule expansion (dashboard lines 234-289)
-/

/-- A `classTime` row: weekly recurring slot. `dayOfWeek`, `startMinutes`
and `endMinutes` are integer columns; this core never validates them. -/
structure ClassTime where
  id : String
  classId : String
  dayOfWeek : Int
  startMinutes : Int
  endMinutes : Int
  deriving Repr, DecidableEq, Inhabited

/-- A derived upcoming session.  `start`/`end` ISO strings are represented
by their epoch minutes (`startMin`, `endMin`); the identifier
`` `${ct.id}-${isoDate}` `` is represented by the pair
`(slotId, epochDay)`, in bijection with it. -/
structure SessionInstance where
  slotId : String
  epochDay : Int
  classId : String
  startMin : Int
  endMin : Int
  dayOfWeek : Int
  deriving Repr, DecidableEq, Inhabited

/-- The session pushed for slot `ct` at day offset `d` from the reference
day: date at UTC midnight, then `setUTCMinutes(startMinutes)` /
`setUTCMinutes(endMinutes)` (which adds the raw minute count to the
midnight instant, normalising any integer). -/
def mkSession (refDay : Int) (ct : ClassTime) (d : Nat) : SessionInstance :=
  { slotId := ct.id
    epochDay := refDay + d
    classId := ct.classId
    startMin := (refDay + d) * 1440 + ct.startMinutes
    endMin := (refDay + d) * 1440 + ct.endMinutes
    dayOfWeek := ct.dayOfWeek }

/-- The inner loop for one slot: for every offset in `[0, horizon)`, emit
a session when `date.getUTCDay() === ct.dayOfWeek`, where the UTC weekday
of epoch day `e` is `(e + 4) % 7`. -/
def expandSlot (refDay : Int) (horizon : Nat) (ct : ClassTime) :
    List SessionInstance :=
  (List.range horizon).filterMap fun (d : Nat) =>
    if (refDay + (d : Int) + 4) % 7 = ct.dayOfWeek then
      some (mkSession refDay ct d)
    else none

/-- The full `upcomingSessions` accumulation across all slots in fetch
order. -/
def expandAll (refDay : Int) (horizon : Nat) (cts : List ClassTime) :
    List SessionInstance :=
  cts.flatMap (expandSlot refDay horizon)

/-- `upcomingSessions.sort((a, b) => a.start.localeCompare(b.start))` with
the dashboard's 7-day horizon: stable sort keyed by the start instant
alone. -/
def upcomingSorted (refDay : Int) (cts : List ClassTime) :
    List SessionInstance :=
  sortByKey (fun s => s.startMin) (expandAll refDay 7 cts)

theorem filterMap_ite_eq_filter_map {α β : Type} (p : α → Prop)
    [DecidablePred p] (g : α → β) (l : List α) :
    (l.filterMap fun d => if p d then some (g d) else none)
      = (l.filter fun d => decide (p d)).map g := by
  induction l with
  | nil => rfl
  | cons a l ih =>
    rw [List.filterMap_cons, List.filter_cons]
    by_cases h : p a <;> simp [h, ih]

theorem expandSlot_eq_filter_map (refDay : Int) (horizon : Nat)
    (ct : ClassTime) :
    expandSlot refDay horizon ct
      = ((List.range horizon).filter fun (d : Nat) =>
            decide ((refDay + (d : Int) + 4) % 7 = ct.dayOfWeek)).map
          (mkSession refDay ct) :=
  filterMap_ite_eq_filter_map _ _ _

set_option maxHeartbeats 1600000 in
/-- Any 7 consecutive days contain each weekday exactly once: the number
of offsets in `[0, 7)` whose weekday is `w` is 1 when `0 ≤ w < 7` and 0
otherwise. -/
theorem weekday_hits (a w : Int) :
    ((List.range 7).filter fun (d : Nat) =>
        decide ((a + (d : Int) + 4) % 7 = w)).length
      = if 0 ≤ w ∧ w < 7 then 1 else 0 := by
  have h7 : List.range 7 = [0, 1, 2, 3, 4, 5, 6] := rfl
  rw [h7]
  simp only [List.filter_cons, List.filter_nil, decide_eq_true_eq]
  push_cast
  split_ifs <;> simp only [List.length_cons, List.length_nil] <;> omega

/-- C9: every emitted session carries its source slot's `dayOfWeek`; a
session is materialized for offset `d` in `[0, horizon)` exactly when the
UTC weekday of `referenceDay + d` equals the slot's `dayOfWeek`; and every
emitted session is `mkSession` at such an offset, i.e. its start instant
is that date plus `startMinutes` and its identifier is the slot id paired
with the date. -/
theorem C9_expand_dayOfWeek :
    ∀ (refDay : Int) (horizon : Nat) (ct : ClassTime),
      (∀ s ∈ expandSlot refDay horizon ct, s.dayOfWeek = ct.dayOfWeek)
      ∧ (∀ d : Nat, d < horizon →
          (((refDay + (d : Int) + 4) % 7 = ct.dayOfWeek) ↔
            mkSession refDay ct d ∈ expandSlot refDay horizon ct))
      ∧ (∀ s ∈ expandSlot refDay horizon ct, ∃ d : Nat, d < horizon
          ∧ s = mkSession refDay ct d
          ∧ (refDay + (d : Int) + 4) % 7 = ct.dayOfWeek) := by
  intro refDay horizon ct
  refine ⟨?_, ?_, ?_⟩
  · intro s hs
    rw [expandSlot_eq_filter_map] at hs
    rcases List.mem_map.mp hs with ⟨d, _, rfl⟩
    rfl
  · intro d hd
    constructor
    · intro hcond
      rw [expandSlot_eq_filter_map]
      refine List.mem_map.mpr ⟨d, ?_, rfl⟩
      exact List.mem_filter.mpr ⟨List.mem_range.mpr hd, by simpa using hcond⟩
    · intro hmem
      rw [expandSlot_eq_filter_map] at hmem
      rcases List.mem_map.mp hmem with ⟨d', hd', heq⟩
      have hday : refDay + (d' : Int) = refDay + (d : Int) :=
        congrArg SessionInstance.epochDay heq
      have hdd : d' = d := by omega
      subst hdd
      simpa using (List.mem_filter.mp hd').2
  · intro s hs
    rw [expandSlot_eq_filter_map] at hs
    rcases List.mem_map.mp hs with ⟨d, hd, rfl⟩
    exact ⟨d, List.mem_range.mp (List.mem_filter.mp hd).1, rfl,
      by simpa using (List.mem_filter.mp hd).2⟩

/-- A slot meeting on Thursdays (weekday 4), used as concrete witness
input: day 0 (1970-01-01) is a Thursday. -/
def ctThursday : ClassTime :=
  { id := "w9"
    classId := "k9"
    dayOfWeek := 4
    startMinutes := 540
    endMinutes := 600 }

/-- Witness for C9: on a 7-day horizon anchored at day 0 (a Thursday), the
Thursday slot's session at offset 0 is emitted. -/
theorem C9_expand_dayOfWeek_witness :
    mkSession 0 ctThursday 0 ∈ expandSlot 0 7 ctThursday :=
  ((C9_expand_dayOfWeek 0 7 ctThursday).2.1 0 (by decide)).mp (by decide)

/-- C10: with the dashboard's 7-day horizon every slot whose `dayOfWeek`
lies in `0..6` yields exactly one session (a slot with an out-of-range
`dayOfWeek` yields none), so the pre-truncation session count equals the
number of such slots. -/
theorem C10_seven_day_horizon :
    ∀ (refDay : Int) (ct : ClassTime) (cts : List ClassTime),
      (expandSlot refDay 7 ct).length
          = (if 0 ≤ ct.dayOfWeek ∧ ct.dayOfWeek < 7 then 1 else 0)
      ∧ (expandAll refDay 7 cts).length
          = (cts.filter fun c =>
              decide (0 ≤ c.dayOfWeek) && decide (c.dayOfWeek < 7)).length := by
  intro refDay ct cts
  have hslot : ∀ c : ClassTime, (expandSlot refDay 7 c).length
      = if 0 ≤ c.dayOfWeek ∧ c.dayOfWeek < 7 then 1 else 0 := by
    intro c
    rw [expandSlot_eq_filter_map, List.length_map]
    exact weekday_hits refDay c.dayOfWeek
  refine ⟨hslot ct, ?_⟩
  induction cts with
  | nil => rfl
  | cons c rest ih =>
    have hc : expandAll refDay 7 (c :: rest)
        = expandSlot refDay 7 c ++ expandAll refDay 7 rest := rfl
    rw [hc, List.length_append, hslot c, ih, List.filter_cons]
    by_cases h : 0 ≤ c.dayOfWeek ∧ c.dayOfWeek < 7
    · simp [h.1, h.2, Nat.add_comm]
    · rw [if_neg h]
      have hcond : (decide (0 ≤ c.dayOfWeek) && decide (c.dayOfWeek < 7))
          = false := by
        rcases not_and_or.mp h with h1 | h1 <;> simp [h1]
      rw [hcond]
      simp

/-- C6: a degenerate slot (`endMinutes ≤ startMinutes`) still flows
through expansion — which is a total function over arbitrary integer
minute fields — every session it emits has `endInstant ≤ startInstant`,
and it emits exactly as many sessions as a well-formed slot on the same
weekday would. -/
theorem C6_degenerate_slot :
    ∀ (refDay : Int) (horizon : Nat) (ct : ClassTime),
      ct.endMinutes ≤ ct.startMinutes →
      (∀ s ∈ expandSlot refDay horizon ct, s.endMin ≤ s.startMin)
      ∧ (expandSlot refDay horizon ct).length
          = (expandSlot refDay horizon
              { ct with startMinutes := 0, endMinutes := 60 }).length := by
  intro refDay horizon ct hdeg
  constructor
  · intro s hs
    rw [expandSlot_eq_filter_map] at hs
    rcases List.mem_map.mp hs with ⟨d, _, rfl⟩
    simp only [mkSession]
    omega
  · rw [expandSlot_eq_filter_map, expandSlot_eq_filter_map,
      List.length_map, List.length_map]

/-- A degenerate Thursday slot whose end minute equals its start minute. -/
def ctDegenerate : ClassTime :=
  { id := "x6"
    classId := "k6"
    dayOfWeek := 4
    startMinutes := 600
    endMinutes := 600 }

/-- Witness for C6 at the degenerate slot: its day-0 session is emitted
with `endInstant ≤ startInstant`, and the emission count matches the
well-formed variant. -/
theorem C6_degenerate_slot_witness :
    ((mkSession 0 ctDegenerate 0).endMin ≤ (mkSession 0 ctDegenerate 0).startMin)
    ∧ (expandSlot 0 7 ctDegenerate).length
        = (expandSlot 0 7
            { ctDegenerate with startMinutes := 0, endMinutes := 60 }).length :=
  ⟨(C6_degenerate_slot 0 7 ctDegenerate (by decide)).1 _ (by decide),
   (C6_degenerate_slot 0 7 ctDegenerate (by decide)).2⟩

/-!
## The upcoming-sessions ordering (C2)
-/

/-- Kernel-computable lexicographic comparison of char lists (by code
point), standing in for string comparison of slot identifiers. -/
def charListLe : List Char → List Char → Bool
  | [], _ => true
  | _ :: _, [] => false
  | a :: as, b :: bs =>
    if a.toNat < b.toNat then true
    else if b.toNat < a.toNat then false
    else charListLe as bs

/-- Lexicographic order on slot identifiers. -/
abbrev slotIdLe (a b : String) : Prop := charListLe a.data b.data = true

/-- The ordering the claim asserts for the sorted session list: ascending
by start instant, ties broken by slot identifier. -/
def sortedByStartThenSlotId (l : List SessionInstance) : Prop :=
  l.Pairwise fun u v =>
    u.startMin < v.startMin
    ∨ (u.startMin = v.startMin ∧ slotIdLe u.slotId v.slotId)

/-- Two distinct Thursday slots sharing the same meeting minutes, listed
with the larger identifier first. -/
def ctSlotB : ClassTime :=
  { id := "b", classId := "k", dayOfWeek := 4, startMinutes := 600, endMinutes := 660 }

/-- The same slot shape under the smaller identifier. -/
def ctSlotA : ClassTime :=
  { id := "a", classId := "k", dayOfWeek := 4, startMinutes := 600, endMinutes := 660 }

/-- Counterexample to C2: with two slots sharing a start instant, the
sorted output keeps them in input iteration order (`"b"` before `"a"`),
so it is not ordered by slot identifier on ties, and permuting the slot
list changes the output. -/
theorem C2_counterexample :
    ((upcomingSorted 0 [ctSlotB, ctSlotA]).map
        (fun s => (s.startMin, s.slotId)) = [(600, "b"), (600, "a")])
    ∧ ¬ sortedByStartThenSlotId (upcomingSorted 0 [ctSlotB, ctSlotA])
    ∧ upcomingSorted 0 [ctSlotB, ctSlotA]
        ≠ upcomingSorted 0 [ctSlotA, ctSlotB] := by
  refine ⟨by decide, ?_, by decide⟩
  intro hsort
  rw [sortedByStartThenSlotId] at hsort
  have hlist : upcomingSorted 0 [ctSlotB, ctSlotA]
      = [mkSession 0 ctSlotB 0, mkSession 0 ctSlotA 0] := by decide
  rw [hlist] at hsort
  have hrel := (List.pairwise_cons.mp hsort).1 (mkSession 0 ctSlotA 0)
    (List.mem_singleton.mpr rfl)
  revert hrel
  decide

/-- C2 (amended): the sorted upcoming-session list is non-decreasing in
the start instant, and inside every start-instant tie class it preserves
the generation order (slots in input order) — the comparator consults only
the start instants, so ties are not reordered by slot identifier. -/
theorem C2_sessions_sorted_amended :
    ∀ (refDay : Int) (cts : List ClassTime),
      (upcomingSorted refDay cts).Pairwise (fun u v => u.startMin ≤ v.startMin)
      ∧ ∀ c : Int,
          (upcomingSorted refDay cts).filter (fun s => s.startMin == c)
            = (expandAll refDay 7 cts).filter (fun s => s.startMin == c) := by
  intro refDay cts
  exact ⟨sorted_sortByKey _ _, fun c => filter_sortByKey _ _ c⟩

/-!
## Monthly revenue buckets (dashboard lines 200-232) and the
current-month summary (lines 74-98)
-/

/-- An `invoiceItem` row.  `billedMonth` is a date; only its UTC year and
month are ever read, so it is represented by the absolute month index
`year * 12 + (month - 1)`. -/
structure InvoiceItem where
  billedMonth : Int
  lineTotalCents : Int
  paidCents : Option Int
  deriving Repr, DecidableEq, Inhabited

/-- `String(n).padStart(2, '0')` for the 1-based month number. -/
def pad2 (n : Int) : String :=
  if n < 10 then "0" ++ toString n else toString n

/-- `monthKey(d)`: `` `${d.getUTCFullYear()}-${pad2(d.getUTCMonth() + 1)}` ``
on the date of absolute month index `m`. -/
def monthKey (m : Int) : String :=
  toString (m / 12) ++ "-" ++ pad2 (m % 12 + 1)

/-- The `monthMap` accumulation: a string-keyed record of
`{invoicedCents, paidCents}` pairs, absent keys reading as `(0, 0)`
(the source reads them through `?.invoicedCents || 0`). -/
def monthMapOf (items : List InvoiceItem) : String → Int × Int :=
  items.foldl
    (fun m it s =>
      if s = monthKey it.billedMonth then
        ((m s).1 + it.lineTotalCents, (m s).2 + it.paidCents.getD 0)
      else m s)
    (fun _ => (0, 0))

/-- One entry of the `monthlyRevenue` trend list. -/
structure MonthBucket where
  month : String
  invoicedCents : Int
  paidCents : Int
  deriving Repr, DecidableEq, Inhabited

/-- The `monthlyRevenue` loop: `for (let i = 5; i >= 0; i--)` pushes the
bucket of month `anchor - i`, i.e. months `anchor-5 … anchor` oldest
first, reading the accumulated map with `|| 0` defaults. -/
def aggregateByMonth (items : List InvoiceItem) (anchorMonth : Int) :
    List MonthBucket :=
  (List.range 6).map fun (i : Nat) =>
    { month := monthKey (anchorMonth - 5 + (i : Int))
      invoicedCents :=
        (monthMapOf items (monthKey (anchorMonth - 5 + (i : Int)))).1
      paidCents :=
        (monthMapOf items (monthKey (anchorMonth - 5 + (i : Int)))).2 }

theorem monthMap_foldl_miss (items : List InvoiceItem)
    (m0 : String → Int × Int) (s : String)
    (h : ∀ it ∈ items, monthKey it.billedMonth ≠ s) :
    (items.foldl
      (fun m it s' =>
        if s' = monthKey it.billedMonth then
          ((m s').1 + it.lineTotalCents, (m s').2 + it.paidCents.getD 0)
        else m s')
      m0) s = m0 s := by
  induction items generalizing m0 with
  | nil => rfl
  | cons it rest ih =>
    rw [List.foldl_cons, ih _ fun j hj => h j (List.mem_cons_of_mem _ hj)]
    have : s ≠ monthKey it.billedMonth := (h it (List.mem_cons_self _ _)).symm
    simp [this]

/-- A month with no matching line item reads `(0, 0)` out of the map. -/
theorem monthMapOf_miss (items : List InvoiceItem) (s : String)
    (h : ∀ it ∈ items, monthKey it.billedMonth ≠ s) :
    monthMapOf items s = (0, 0) :=
  monthMap_foldl_miss items _ s h

/-- C4: for every item list and anchor month, the trend aggregation
returns exactly 6 buckets, whose months are `anchor-5 … anchor` oldest
first; a bucket whose month matches no item is zero-filled; in particular
the empty item list yields 6 all-zero buckets. -/
theorem C4_aggregateByMonth :
    ∀ (items : List InvoiceItem) (a : Int),
      (aggregateByMonth items a).length = 6
      ∧ (aggregateByMonth items a).map (fun b => b.month)
          = (List.range 6).map (fun (i : Nat) => monthKey (a - 5 + (i : Int)))
      ∧ (∀ b ∈ aggregateByMonth items a,
          (∀ it ∈ items, monthKey it.billedMonth ≠ b.month) →
            b.invoicedCents = 0 ∧ b.paidCents = 0)
      ∧ (∀ b ∈ aggregateByMonth [] a,
          b.invoicedCents = 0 ∧ b.paidCents = 0) := by
  intro items a
  refine ⟨by simp only [aggregateByMonth, List.length_map, List.length_range],
    by simp only [aggregateByMonth, List.map_map]; rfl, ?_, ?_⟩
  · intro b hb hmiss
    rcases List.mem_map.mp hb with ⟨i, _, rfl⟩
    have h0 := monthMapOf_miss items (monthKey (a - 5 + i)) hmiss
    constructor <;> simp [h0]
  · intro b hb
    rcases List.mem_map.mp hb with ⟨i, _, rfl⟩
    have h0 : monthMapOf [] (monthKey (a - 5 + i)) = (0, 0) := rfl
    constructor <;> simp [h0]

/-- Witness for C4: the oldest bucket of the empty aggregation at anchor
month 24305 (June 2025) is zero-filled. -/
theorem C4_aggregateByMonth_witness :
    ((aggregateByMonth [] 24305).get
        ⟨0, by simp only [aggregateByMonth, List.length_map, List.length_range];
               decide⟩).invoicedCents = 0
    ∧ ((aggregateByMonth [] 24305).get
        ⟨0, by simp only [aggregateByMonth, List.length_map, List.length_range];
               decide⟩).paidCents = 0 :=
  (C4_aggregateByMonth [] 24305).2.2.2 _ (List.get_mem _ _ _)

/-- An invoice as read for the current-month summary: only its item list
is consumed. -/
structure InvoiceRecord where
  items : List InvoiceItem
  deriving Repr, DecidableEq, Inhabited

/-- `currentMonthInvoicedCents`: over the fetched invoices, sum each
invoice's `items.reduce((s, i) => s + i.lineTotalCents, 0)`. -/
def currentMonthInvoicedCents (invs : List InvoiceRecord) : Int :=
  invs.foldl (fun s inv =>
    s + inv.items.foldl (fun t i => t + i.lineTotalCents) 0) 0

/-- `currentMonthPaidCents`: as above with `(i.paidCents ?? 0)`. -/
def currentMonthPaidCents (invs : List InvoiceRecord) : Int :=
  invs.foldl (fun s inv =>
    s + inv.items.foldl (fun t i => t + i.paidCents.getD 0) 0) 0

/-- `currentMonthRemainingCents = invoiced - paid`, never clamped. -/
def currentMonthRemainingCents (invs : List InvoiceRecord) : Int :=
  currentMonthInvoicedCents invs - currentMonthPaidCents invs

/-- `currentMonthPaymentRate`: the guarded ratio
`invoiced > 0 ? paid / invoiced : 0` (exact rational standing in for the
JS float quotient). -/
def currentMonthPaymentRate (invs : List InvoiceRecord) : ℚ :=
  if currentMonthInvoicedCents invs > 0 then
    (currentMonthPaidCents invs : ℚ) / (currentMonthInvoicedCents invs : ℚ)
  else 0

/-- C7: the current-month summary has `paymentRate = paid / invoiced`
when `invoicedCents > 0` and exactly `0` when `invoicedCents = 0` (the
division is guarded, never evaluated at a zero divisor), while
`remainingCents = invoiced - paid` is unclamped and is negative whenever
paid exceeds invoiced. -/
theorem C7_summary_paymentRate :
    ∀ invs : List InvoiceRecord,
      (currentMonthInvoicedCents invs > 0 →
        currentMonthPaymentRate invs
          = (currentMonthPaidCents invs : ℚ) / (currentMonthInvoicedCents invs : ℚ))
      ∧ (currentMonthInvoicedCents invs = 0 → currentMonthPaymentRate invs = 0)
      ∧ currentMonthRemainingCents invs
          = currentMonthInvoicedCents invs - currentMonthPaidCents invs
      ∧ (currentMonthPaidCents invs > currentMonthInvoicedCents invs →
          currentMonthRemainingCents invs < 0) := by
  intro invs
  refine ⟨?_, ?_, rfl, ?_⟩
  · intro h
    simp [currentMonthPaymentRate, h]
  · intro h
    simp [currentMonthPaymentRate, h]
  · intro h
    simp only [currentMonthRemainingCents]
    omega

/-- A fully-unpaid single-item invoice snapshot (invoiced 400, paid 0)
and an empty snapshot, witness inputs for C7. -/
def exInvoices : List InvoiceRecord :=
  [{ items := [{ billedMonth := 24305, lineTotalCents := 400, paidCents := some 200 }] }]

/-- Witness for C7: the empty snapshot has invoiced 0 and rate exactly 0;
the concrete snapshot has rate 200 / 400. -/
theorem C7_summary_paymentRate_witness :
    currentMonthPaymentRate [] = 0
    ∧ currentMonthPaymentRate exInvoices = (200 : ℚ) / 400 := by
  constructor
  · exact (C7_summary_paymentRate []).2.1 rfl
  · have h := (C7_summary_paymentRate exInvoices).1 (by decide)
    rw [h]
    norm_num [currentMonthPaidCents, currentMonthInvoicedCents, exInvoices]

/-!
## Students-by-level histogram (dashboard lines 183-198)
-/

/-- Adding one element to a JS `Set` (insertion-ordered, first occurrence
kept). -/
def jsSetInsert (acc : List String) (x : String) : List String :=
  if x ∈ acc then acc else acc ++ [x]

/-- `new Set(list)`: the distinct elements in first-occurrence order. -/
def jsSetOf (l : List String) : List String :=
  l.foldl jsSetInsert []

/-- The distinct level names of one student:
`new Set(s.classes.map(c => c.subject?.track?.level?.name).filter(n => !!n))`.
Each class contributes the optional name reached through
subject → track → level; `!!n` drops both missing names and the empty
string. -/
def levelNamesOf (classes : List (Option String)) : List String :=
  jsSetOf ((classes.filterMap id).filter fun n => n != "")

/-- `levelNames.forEach(lvl => { m[lvl] = (m[lvl] || 0) + 1 })`. -/
def bumpLevels (names : List String) (acc : String → Nat) : String → Nat :=
  names.foldl (fun a lvl b => if b = lvl then a b + 1 else a b) acc

/-- The `studentsByLevel` record: for each student, bump `"Unassigned"`
when the level-name set is empty, otherwise bump every distinct level
name once.  Missing keys read as 0 (`|| 0`). -/
def studentsByLevel (students : List (List (Option String))) :
    String → Nat :=
  students.foldl
    (fun acc s =>
      if levelNamesOf s = [] then
        fun b => if b = "Unassigned" then acc b + 1 else acc b
      else bumpLevels (levelNamesOf s) acc)
    (fun _ => 0)

/-- What one student adds to bucket `b`: 1 to `"Unassigned"` when its
level-name set is empty, else 1 to each of its distinct level names. -/
def levelContribution (s : List (Option String)) (b : String) : Nat :=
  if levelNamesOf s = [] then (if b = "Unassigned" then 1 else 0)
  else (if b ∈ levelNamesOf s then 1 else 0)

theorem jsSetInsert_nodup (acc : List String) (x : String)
    (h : acc.Nodup) : (jsSetInsert acc x).Nodup := by
  unfold jsSetInsert
  split
  · exact h
  · rename_i hx
    simp [List.nodup_append, h, hx]

theorem mem_jsSetInsert (acc : List String) (x y : String) :
    y ∈ jsSetInsert acc x ↔ y ∈ acc ∨ y = x := by
  unfold jsSetInsert
  split
  · rename_i hx
    constructor
    · exact Or.inl
    · rintro (h | rfl)
      · exact h
      · exact hx
  · simp

theorem jsSet_foldl_nodup (l acc : List String) (h : acc.Nodup) :
    (l.foldl jsSetInsert acc).Nodup := by
  induction l generalizing acc with
  | nil => exact h
  | cons x xs ih => exact ih _ (jsSetInsert_nodup acc x h)

theorem jsSetOf_nodup (l : List String) : (jsSetOf l).Nodup :=
  jsSet_foldl_nodup l [] List.nodup_nil

theorem levelNamesOf_nodup (s : List (Option String)) :
    (levelNamesOf s).Nodup :=
  jsSetOf_nodup _

theorem bumpLevels_apply (names : List String) (hn : names.Nodup) :
    ∀ (acc : String → Nat) (b : String),
      bumpLevels names acc b = acc b + (if b ∈ names then 1 else 0) := by
  induction names with
  | nil => intro acc b; simp [bumpLevels]
  | cons n ns ih =>
    intro acc b
    rw [List.nodup_cons] at hn
    have hstep : bumpLevels (n :: ns) acc
        = bumpLevels ns (fun b' => if b' = n then acc b' + 1 else acc b') := rfl
    rw [hstep, ih hn.2]
    by_cases hb : b = n
    · subst hb
      have : b ∉ ns := hn.1
      simp [this]
    · simp [hb]

theorem studentsByLevel_foldl (students : List (List (Option String))) :
    ∀ (acc : String → Nat) (b : String),
      (students.foldl
        (fun acc s =>
          if levelNamesOf s = [] then
            fun b => if b = "Unassigned" then acc b + 1 else acc b
          else bumpLevels (levelNamesOf s) acc)
        acc) b
      = acc b + (students.map fun s => levelContribution s b).sum := by
  induction students with
  | nil => intro acc b; simp
  | cons s rest ih =>
    intro acc b
    rw [List.foldl_cons, ih, List.map_cons, List.sum_cons]
    by_cases hs : levelNamesOf s = []
    · simp only [hs, if_pos, levelContribution, if_pos hs]
      by_cases hb : b = "Unassigned" <;> simp [hb, Nat.add_comm, Nat.add_assoc, Nat.add_left_comm]
    · simp only [if_neg hs, levelContribution,
        bumpLevels_apply (levelNamesOf s) (levelNamesOf_nodup s)]
      omega

/-- C5: the students-by-level histogram value at every bucket is the
number of students contributing to it, each exactly once: a student with
an empty distinct level-name set counts once under `"Unassigned"`, a
student with `k ≥ 1` distinct names counts once under each of them and
never under `"Unassigned"`; concretely, a student under levels `"A"` and
`"B"` increments both buckets by 1 and `"Unassigned"` by 0, and a student
with no reachable level increments `"Unassigned"` by 1. -/
theorem C5_studentsByLevel :
    (∀ (students : List (List (Option String))) (b : String),
      studentsByLevel students b
        = (students.map fun s => levelContribution s b).sum)
    ∧ (studentsByLevel [[some ("A"), some ("B")]] "A" = 1
      ∧ studentsByLevel [[some ("A"), some ("B")]] "B" = 1
      ∧ studentsByLevel [[some ("A"), some ("B")]] "Unassigned" = 0
      ∧ studentsByLevel [[none, none]] "Unassigned" = 1) := by
  refine ⟨?_, by decide, by decide, by decide, by decide⟩
  intro students b
  have h := studentsByLevel_foldl students (fun _ => 0) b
  rw [Nat.zero_add] at h
  exact h
